import Mathlib

/-
Verification development for the fs path library (path.go, fs.go, errors.go).

The filesystem state is modelled as a rooted tree of nodes; paths are lists
of segments relative to the filesystem root (the canonical rendering of a
cleaned absolute path), with the special segment ".." resolved against the
tree exactly as the operating system resolves it (each preceding component
must exist and be a directory).  Directory listings carry their entries in
listing order, which for the real filesystem is lexical order; permission
bits are carried as numeric modes, and a separate readable flag models
whether reading the directory listing succeeds.  File handles are elided:
an open that succeeds is recorded simply as success plus the state change
it makes (creation, truncation), and io.Copy is recorded as transferring
the source content into the destination file.
-/

namespace FsSpec

/-- Operating-system error causes surfaced by the native calls the library
delegates to (os.Stat, os.OpenFile, os.MkdirAll, directory listing). -/
inductive OsErr where
| enoent
| enotdir
| eisdir
| eacces
deriving DecidableEq

/-- The error taxonomy of errors.go, plus wrapped native errors (Go returns
those as *os.PathError values, distinct from the library sentinels). -/
inductive Err where
| dirDoesNotExist
| fileDoesNotExist
| notFound
| pathIsEmpty
| pathIsDirectory
| pathIsDirectoryDestFile
| osError (e : OsErr)
deriving DecidableEq

/-- os.IsNotExist: true exactly for the does-not-exist cause. -/
def isNotExist (e : OsErr) : Bool := e = .enoent

/-- Decidable equality of expected results. -/
instance instDecEqExcept {ε α : Type} [DecidableEq ε] [DecidableEq α] :
    DecidableEq (Except ε α)
| .ok a, .ok b =>
  if h : a = b then .isTrue (by rw [h]) else .isFalse (fun hc => h (Except.ok.inj hc))
| .error e, .error f =>
  if h : e = f then .isTrue (by rw [h]) else .isFalse (fun hc => h (Except.error.inj hc))
| .ok _, .error _ => .isFalse (fun hc => Except.noConfusion hc)
| .error _, .ok _ => .isFalse (fun hc => Except.noConfusion hc)

mutual
/-- A filesystem node: a regular file with content and permission mode, or a
directory with permission mode, a readable flag (whether listing it
succeeds) and its children in listing order. -/
inductive FNode where
| file (content : String) (mode : Nat)
| dir (mode : Nat) (readable : Bool) (children : Kids)
deriving DecidableEq

/-- Children of a directory, in listing (lexical) order. -/
inductive Kids where
| nil
| cons (name : String) (node : FNode) (rest : Kids)
deriving DecidableEq
end

/-- A path, as the list of its segments.  The empty list stands for the
empty path (and, when resolved, for the filesystem root). -/
abbrev SegPath := List String

/-- Look up a child by name in a directory listing. -/
def Kids.find : Kids → String → Option FNode
| .nil, _ => none
| .cons nm c rest, s => if nm = s then some c else Kids.find rest s

/-- Replace the child of the given name, or append it when absent. -/
def Kids.set : Kids → String → FNode → Kids
| .nil, s, n => .cons s n .nil
| .cons nm c rest, s, n => if nm = s then .cons nm n rest else .cons nm c (Kids.set rest s n)

/-- Whether a node is a directory. -/
def isDirN : FNode → Bool
| .file _ _ => false
| .dir _ _ _ => true

/-- The numeric permission mode of a node. -/
def modeOf : FNode → Nat
| .file _ m => m
| .dir m _ _ => m

/-- Follow an already-resolved (canonical, dotdot-free) path down the tree. -/
def lookupNode : FNode → SegPath → Option FNode
| n, [] => some n
| .dir _ _ cs, seg :: rest =>
  match Kids.find cs seg with
  | some c => lookupNode c rest
  | none => none
| .file _ _, _ :: _ => none

/-- Resolve a path against the tree the way the operating system does:
walking segment by segment from the root, requiring every non-final
component to exist and be a directory (enoent when missing, enotdir when a
file), and resolving a dotdot segment to the parent of the directory
reached so far (the parent of the root is the root).  Returns the canonical
path of the target; the final component is not required to exist. -/
def resolveFrom (fs : FNode) : SegPath → SegPath → Except OsErr SegPath
| cur, [] => .ok cur
| cur, seg :: rest =>
  if seg = ".." then resolveFrom fs cur.dropLast rest
  else
    match rest with
    | [] => .ok (cur ++ [seg])
    | _ :: _ =>
      match lookupNode fs (cur ++ [seg]) with
      | some (.dir _ _ _) => resolveFrom fs (cur ++ [seg]) rest
      | some (.file _ _) => .error .enotdir
      | none => .error .enoent

/-- os.Stat made total the way Info() uses it: the node at the path, or
none when the stat fails for any reason. -/
def statAt (fs : FNode) (p : SegPath) : Option FNode :=
  match resolveFrom fs [] p with
  | .ok cp => lookupNode fs cp
  | .error _ => none

/-- Path.Exists: the stat call succeeds. -/
def pathExists (fs : FNode) (p : SegPath) : Bool := (statAt fs p).isSome

/-- Path.FileExists: the path exists and is a regular file. -/
def FileExists (fs : FNode) (p : SegPath) : Bool :=
  match statAt fs p with
  | some (.file _ _) => true
  | _ => false

/-- Path.DirExists: the path exists and is a directory. -/
def DirExists (fs : FNode) (p : SegPath) : Bool :=
  match statAt fs p with
  | some (.dir _ _ _) => true
  | _ => false

/-- Path.Empty: the whitespace-trimmed path string is empty; in the segment
model the empty path is the empty segment list. -/
def emptyPath (p : SegPath) : Bool := p.isEmpty

/-- filepath.Clean on the segment rendering: resolve dotdot segments
lexically (on a cleaned absolute path a leading dotdot disappears, as the
parent of the root is the root). -/
def cleanPath (p : SegPath) : SegPath :=
  p.foldl (fun acc seg => if seg = ".." then acc.dropLast else acc ++ [seg]) []

/-- filepath.Dir (the Parent method) on a cleaned path: all but the last
segment. -/
def parentPath (p : SegPath) : SegPath := p.dropLast

/-- filepath.Base (the Basename method) on a cleaned path: the final
segment (the base of the empty path is the dot path). -/
def basename (p : SegPath) : String :=
  match p.getLast? with
  | some s => s
  | none => "."

/-- Default permission bits for files created by the library (0644). -/
def defaultFileMode : Nat := 0o644

/-- Default permission bits for directories created by the library (0755). -/
def defaultDirMode : Nat := 0o755

/-- Replace the node at a canonical path, creating the leaf location if
absent (used only where the parent already exists as a directory). -/
def setAt : SegPath → FNode → FNode → FNode
| [], repl, _ => repl
| seg :: rest, repl, .dir md r cs =>
  .dir md r (Kids.set cs seg (setAt rest repl ((Kids.find cs seg).getD (.dir defaultDirMode true .nil))))
| _ :: _, _, .file c m => .file c m

/-- os.MkdirAll on a canonical path, creating every missing component as a
directory with the default directory mode; fails with enotdir when an
existing component is a regular file, in which case nothing is created
(MkdirAll discovers the offending component before creating anything). -/
def mkdirAllGo : SegPath → FNode → Except OsErr FNode
| [], n =>
  match n with
  | .dir _ _ _ => .ok n
  | .file _ _ => .error .enotdir
| seg :: rest, n =>
  match n with
  | .file _ _ => .error .enotdir
  | .dir md r cs =>
    match Kids.find cs seg with
    | some c => (mkdirAllGo rest c).map (fun c₂ => .dir md r (Kids.set cs seg c₂))
    | none => (mkdirAllGo rest (.dir defaultDirMode true .nil)).map (fun c₂ => .dir md r (Kids.set cs seg c₂))

/-- Path.MkdirAll: os.MkdirAll with the default directory mode, returning
the (wrapped) native error on failure, with the state unchanged then. -/
def MkdirAll (fs : FNode) (p : SegPath) : Except Err Unit × FNode :=
  match mkdirAllGo p fs with
  | .ok fs₂ => (.ok (), fs₂)
  | .error e => (.error (.osError e), fs)

/-- The three open-flag combinations used by the library. -/
inductive Flag where
| read
| create
| append
deriving DecidableEq

/-- os.O_RDONLY. -/
def openFileFlag : Flag := .read

/-- os.O_WRONLY together with O_CREATE and O_TRUNC. -/
def createFileFlag : Flag := .create

/-- os.O_WRONLY together with O_CREATE and O_APPEND. -/
def appendFileFlag : Flag := .append

/-- os.OpenFile: resolve the path; opening a directory read-only succeeds,
opening it for writing fails with eisdir; an existing file is opened (and
truncated under O_TRUNC, keeping its mode); a missing final component fails
with enoent under O_RDONLY and is created as an empty file with the
requested mode under O_CREATE. -/
def osOpenFile (fs : FNode) (p : SegPath) (flag : Flag) (mode : Nat) : Except OsErr Unit × FNode :=
  match resolveFrom fs [] p with
  | .error e => (.error e, fs)
  | .ok cp =>
    match lookupNode fs cp with
    | some (.dir _ _ _) =>
      match flag with
      | .read => (.ok (), fs)
      | .create => (.error .eisdir, fs)
      | .append => (.error .eisdir, fs)
    | some (.file _ m) =>
      match flag with
      | .read => (.ok (), fs)
      | .append => (.ok (), fs)
      | .create => (.ok (), setAt cp (.file ("") m) fs)
    | none =>
      match flag with
      | .read => (.error .enoent, fs)
      | .create => (.ok (), setAt cp (.file ("") mode) fs)
      | .append => (.ok (), setAt cp (.file ("") mode) fs)

/-- The unexported open helper of path.go: reject the empty path and a
directory target, attempt the native open, and when that open fails
because the path does not exist, create the missing ancestors of the
cleaned parent and retry the open exactly once. -/
def openF (fs : FNode) (p : SegPath) (flag : Flag) (mode : Nat) : Except Err Unit × FNode :=
  if emptyPath p then (.error .pathIsEmpty, fs)
  else if DirExists fs p then (.error .pathIsDirectory, fs)
  else
    match osOpenFile fs p flag mode with
    | (.ok _, fs₂) => (.ok (), fs₂)
    | (.error e, fs₂) =>
      if !(isNotExist e) then (.error (.osError e), fs₂)
      else
        match MkdirAll fs₂ (parentPath (cleanPath p)) with
        | (.error m, fs₃) => (.error m, fs₃)
        | (.ok _, fs₃) =>
          match osOpenFile fs₃ p flag mode with
          | (.ok _, fs₄) => (.ok (), fs₄)
          | (.error e₂, fs₄) => (.error (.osError e₂), fs₄)

/-- Path.Open: fail fast with the file-does-not-exist sentinel when the
target is not currently a regular file, then open read-only. -/
def Open (fs : FNode) (p : SegPath) : Except Err Unit × FNode :=
  if !(FileExists fs p) then (.error .fileDoesNotExist, fs)
  else openF fs p openFileFlag defaultFileMode

/-- Path.Create: open for writing with create-or-truncate semantics. -/
def Create (fs : FNode) (p : SegPath) : Except Err Unit × FNode :=
  openF fs p createFileFlag defaultFileMode

/-- Path.Append: open for appending, creating the file when necessary. -/
def Append (fs : FNode) (p : SegPath) : Except Err Unit × FNode :=
  openF fs p appendFileFlag defaultFileMode

/-- The walk filter of path.go (WalkBoth, WalkFiles, WalkDirs). -/
inductive WalkType where
| both
| files
| dirs
deriving DecidableEq

/-- WalkBoth considers both directories and files. -/
def WalkBoth : WalkType := .both

/-- WalkFiles considers only files. -/
def WalkFiles : WalkType := .files

/-- WalkDirs considers only directories. -/
def WalkDirs : WalkType := .dirs

/-- Result of walking one subtree, mirroring the error plumbing of Go's
filepath.Walk: normal completion, the distinguished SkipDir value, or a
genuine error (native or returned by the visitor). -/
inductive WalkRes where
| ok
| skipDir
| fail (e : Err)
deriving DecidableEq

mutual
/-- Go's filepath.Walk on one entry below the root, specialised to the
closure that Path.Walk installs.  The entry sits at relative path rel
(never empty); the delivered entries thread through the visitor state σ.
The closure logic (path.go): an errored entry returns the error; the
skipper is SkipDir except for top-level entries, whose parent is the root
itself (for cleaned roots that is exactly depth one); a directory under
WalkFiles and a file under WalkDirs return the skipper undelivered; every
other entry is delivered to the visitor, whose error aborts the walk.  An
unreadable directory surfaces the listing error before being delivered. -/
def walkNode {σ : Type} (wt : WalkType) (visit : σ → SegPath × Bool → σ × Option Err)
    (s : σ) (rel : SegPath) (n : FNode) : σ × WalkRes :=
match n with
| .file _ _ =>
  if wt = .dirs then (s, if rel.length = 1 then .ok else .skipDir)
  else
    match visit s (rel, false) with
    | (s₂, none) => (s₂, .ok)
    | (s₂, some e) => (s₂, .fail e)
| .dir _ r cs =>
  if !r then (s, .fail (.osError .eacces))
  else if wt = .files then
    if rel.length = 1 then walkKids wt visit s rel cs else (s, .skipDir)
  else
    match visit s (rel, true) with
    | (s₂, some e) => (s₂, .fail e)
    | (s₂, none) => walkKids wt visit s₂ rel cs

/-- The child loop of Go's walk: children are processed in listing order;
a SkipDir coming back from a directory child means its contents were
skipped and the loop continues, while a SkipDir coming back from a file
child aborts the remaining entries of this directory and is handed to the
caller; any other error aborts the walk. -/
def walkKids {σ : Type} (wt : WalkType) (visit : σ → SegPath × Bool → σ × Option Err)
    (s : σ) (rel : SegPath) (cs : Kids) : σ × WalkRes :=
match cs with
| .nil => (s, .ok)
| .cons nm c rest =>
  match walkNode wt visit s (rel ++ [nm]) c with
  | (s₂, .ok) => walkKids wt visit s₂ rel rest
  | (s₂, .skipDir) =>
    match c with
    | .dir _ _ _ => walkKids wt visit s₂ rel rest
    | .file _ _ => (s₂, .skipDir)
  | (s₂, .fail e) => (s₂, .fail e)
end

/-- filepath.Walk at the root node: the root itself is never delivered (the
closure returns nil on it), an unreadable root surfaces its listing error,
and a SkipDir escaping the top-level loop is coerced to success; a
non-directory root is rejected by Path.Walk before the traversal starts. -/
def walkRootNode {σ : Type} (wt : WalkType) (visit : σ → SegPath × Bool → σ × Option Err)
    (s : σ) (n : FNode) : σ × Except Err Unit :=
match n with
| .dir _ r cs =>
  if !r then (s, .error (.osError .eacces))
  else
    match walkKids wt visit s [] cs with
    | (s₂, .ok) => (s₂, .ok ())
    | (s₂, .skipDir) => (s₂, .ok ())
    | (s₂, .fail e) => (s₂, .error e)
| .file _ _ => (s, .error .dirDoesNotExist)

/-- Path.Walk: fail with the directory-does-not-exist sentinel unless the
root currently is a directory, then run filepath.Walk from it. -/
def WalkM {σ : Type} (fs : FNode) (p : SegPath) (wt : WalkType)
    (visit : σ → SegPath × Bool → σ × Option Err) (s : σ) : σ × Except Err Unit :=
  match statAt fs p with
  | some n => walkRootNode wt visit s n
  | none => (s, .error .dirDoesNotExist)

/-- A visitor that only accumulates state and never errs. -/
def pureVisit {σ : Type} (g : σ → SegPath × Bool → σ) : σ → SegPath × Bool → σ × Option Err :=
  fun s e => (g s e, none)

/-- The collecting visitor: records every delivered entry, never errs. -/
def collectV : List (SegPath × Bool) → SegPath × Bool → List (SegPath × Bool) × Option Err :=
  pureVisit (fun l e => l ++ [e])

/-- The entries a walk rooted at the given directory node delivers (paths
relative to the root), together with the walk's outcome. -/
def walkEntries (t : FNode) (wt : WalkType) : List (SegPath × Bool) × Except Err Unit :=
  walkRootNode wt collectV [] t

/-- The entries Path.Walk delivers for a root path inside a filesystem. -/
def walkList (fs : FNode) (p : SegPath) (wt : WalkType) : List (SegPath × Bool) × Except Err Unit :=
  WalkM fs p wt collectV []

/-- Path.Count: zero when the root is not currently a directory, otherwise
the number of entries the walk delivers to a counting visitor, the walk's
own error being discarded. -/
def Count (fs : FNode) (p : SegPath) (wt : WalkType) : Nat :=
  if !(DirExists fs p) then 0
  else (WalkM fs p wt (fun c _ => (c + 1, none)) 0).1

/-- Content of the regular file at a path (reading an open handle). -/
def readAllAt (fs : FNode) (p : SegPath) : String :=
  match statAt fs p with
  | some (.file c _) => c
  | _ => ""

/-- Write content through a handle opened at a path: replace the content of
the regular file the path resolves to, keeping its mode. -/
def writeAll (fs : FNode) (p : SegPath) (content : String) : FNode :=
  match resolveFrom fs [] p with
  | .ok cp =>
    match lookupNode fs cp with
    | some (.file _ m) => setAt cp (.file content m) fs
    | _ => fs
  | .error _ => fs

/-- copyFiles of path.go: stat the source (file-does-not-exist when that
fails), open the source read-only with mode 0400, open the destination
with create-or-truncate using the source's real mode, then stream the
bytes across; any failure is surfaced as-is. -/
def copyFiles (fs : FNode) (src dest : SegPath) : Except Err Unit × FNode :=
  match statAt fs src with
  | none => (.error .fileDoesNotExist, fs)
  | some info =>
    match openF fs src openFileFlag 0o400 with
    | (.error e, fs₂) => (.error e, fs₂)
    | (.ok _, fs₂) =>
      match openF fs₂ dest createFileFlag (modeOf info) with
      | (.error e, fs₃) => (.error e, fs₃)
      | (.ok _, fs₃) => (.ok (), writeAll fs₃ dest (readAllAt fs₃ src))

/-- copyDirs of path.go: ensure the destination directory exists (creating
it with MkdirAll when absent), then walk the source with WalkBoth; each
visited entry's destination is the entry's path with the source-root
prefix replaced by the destination root (the code performs a single
first-occurrence string substitution of src by dest, which on the
root-prefixed paths the walk produces is exactly this prefix replacement;
see the replaceFirstL development below), directories being created there
and files copied there.  A visitor failure aborts the walk and is
surfaced. -/
def copyDirs (fs : FNode) (src dest : SegPath) : Except Err Unit × FNode :=
  match (if !(DirExists fs dest) then MkdirAll fs dest else (.ok (), fs)) with
  | (.error e, fs₂) => (.error e, fs₂)
  | (.ok _, fs₂) =>
    match WalkM fs₂ src .both
      (fun st e =>
        let newDest := dest ++ e.1
        if e.2 then
          match MkdirAll st newDest with
          | (.ok _, st₂) => (st₂, none)
          | (.error er, st₂) => (st₂, some er)
        else
          match copyFiles st (src ++ e.1) newDest with
          | (.ok _, st₂) => (st₂, none)
          | (.error er, st₂) => (st₂, some er))
      fs₂ with
    | (fs₃, .ok _) => (.ok (), fs₃)
    | (fs₃, .error e) => (.error e, fs₃)

/-- The unexported copy of path.go, the body of CopyTo: not-found when the
source does not exist; a regular-file source is copied into an existing
directory destination under the source's basename, and otherwise to
exactly the destination path; a remaining (directory) source fails when
the destination exists as a regular file, and otherwise is copied
recursively. -/
def copy (fs : FNode) (src dest : SegPath) : Except Err Unit × FNode :=
  if !(pathExists fs src) then (.error .notFound, fs)
  else if FileExists fs src then
    (if DirExists fs dest then copyFiles fs src (dest ++ [basename src])
     else copyFiles fs src dest)
  else if FileExists fs dest then (.error .pathIsDirectoryDestFile, fs)
  else copyDirs fs src dest

/-- Path.CopyTo delegates to copy. -/
def CopyTo (fs : FNode) (src dest : SegPath) : Except Err Unit × FNode :=
  copy fs src dest

mutual
/-- Reference enumeration: the preorder listing of every entry of the
subtree rooted at a node sitting at the given relative path, the node
itself included. -/
def preNode (rel : SegPath) (n : FNode) : List (SegPath × Bool) :=
match n with
| .file _ _ => [(rel, false)]
| .dir _ _ cs => (rel, true) :: preKids rel cs

/-- Reference enumeration over a listing, in order. -/
def preKids (rel : SegPath) (cs : Kids) : List (SegPath × Bool) :=
match cs with
| .nil => []
| .cons nm c rest => preNode (rel ++ [nm]) c ++ preKids rel rest
end

/-- Every entry strictly below a root directory, in preorder. -/
def allEntries : FNode → List (SegPath × Bool)
| .dir _ _ cs => preKids [] cs
| .file _ _ => []

mutual
/-- Every directory listing in the subtree (the root included) reads
successfully. -/
def allReadable : FNode → Bool
| .file _ _ => true
| .dir _ r cs => r && allReadableK cs

/-- Readability of every node of a listing. -/
def allReadableK : Kids → Bool
| .nil => true
| .cons _ c rest => allReadable c && allReadableK rest
end

/-- Whether a listing contains at least one regular file among its direct
entries. -/
def hasFileK : Kids → Bool
| .nil => false
| .cons _ c rest =>
  (match c with
   | .file _ _ => true
   | .dir _ _ _ => false) || hasFileK rest

/-- Reference for the WalkDirs filter inside a non-top-level directory:
entries are taken in listing order and processing stops at the first
regular file (whose SkipDir return abandons the remaining siblings);
every directory encountered before that is delivered and recursed into. -/
def dirsRefK (rel : SegPath) (cs : Kids) : List (SegPath × Bool) :=
match cs with
| .nil => []
| .cons nm c rest =>
  match c with
  | .file _ _ => []
  | .dir _ _ k => (rel ++ [nm], true) :: (dirsRefK (rel ++ [nm]) k ++ dirsRefK rel rest)

/-- Reference for the WalkDirs filter at the root listing: top-level files
carry a nil skipper, so they are merely not delivered, while every
top-level directory is delivered and recursed into. -/
def dirsRefRoot : Kids → List (SegPath × Bool)
| .nil => []
| .cons nm c rest =>
  match c with
  | .file _ _ => dirsRefRoot rest
  | .dir _ _ k => ([nm], true) :: (dirsRefK [nm] k ++ dirsRefRoot rest)

/-- The WalkDirs reference for a whole tree. -/
def dirsRef : FNode → List (SegPath × Bool)
| .dir _ _ cs => dirsRefRoot cs
| .file _ _ => []

/-- The names of a listing, in order. -/
def namesK : Kids → List String
| .nil => []
| .cons nm _ rest => nm :: namesK rest

/-- Pairwise-distinct check for a list of names. -/
def dupFree : List String → Bool
| [] => true
| x :: xs => !(xs.contains x) && dupFree xs

mutual
/-- Sibling names are pairwise distinct throughout the subtree, as the
real filesystem guarantees for directory listings. -/
def wfNames : FNode → Bool
| .file _ _ => true
| .dir _ _ cs => dupFree (namesK cs) && wfNamesK cs

/-- Well-formed names for every node of a listing. -/
def wfNamesK : Kids → Bool
| .nil => true
| .cons _ c rest => wfNames c && wfNamesK rest
end

/-- Whether every direct entry of a listing is a regular file. -/
def allFilesKids : Kids → Bool
| .nil => true
| .cons _ c rest =>
  (match c with
   | .file _ _ => true
   | .dir _ _ _ => false) && allFilesKids rest

/-- No directory entry follows a file entry in this listing. -/
def noDirAfterFileK : Kids → Bool
| .nil => true
| .cons _ c rest =>
  match c with
  | .file _ _ => allFilesKids rest
  | .dir _ _ _ => noDirAfterFileK rest

mutual
/-- In this subtree, no directory listing places a directory after a
regular file. -/
def wpN : FNode → Bool
| .file _ _ => true
| .dir _ _ cs => noDirAfterFileK cs && wpK cs

/-- The same condition over a listing. -/
def wpK : Kids → Bool
| .nil => true
| .cons _ c rest => wpN c && wpK rest
end

/-- The condition for the WalkDirs skip to be unobservable: below the root
no listing placess a directory after a regular file; the root's own
listing is exempt because its files carry a nil skipper. -/
def wpRoot : FNode → Bool
| .file _ _ => true
| .dir _ _ cs => wpK cs

/-- strings.Replace with count one, on character lists: replace the
leftmost occurrence of old in s by new (an empty old matches at the very
start), leaving s unchanged when old does not occur. -/
def replaceFirstL : List Char → List Char → List Char → List Char
| s, old, new =>
  if old.isPrefixOf s then new ++ s.drop old.length
  else
    match s with
    | [] => []
    | c :: rest => c :: replaceFirstL rest old new

/-- The string of a path delivered by a walk rooted at the path rendered by
root: filepath.Walk joins the root string with the relative segments, so
for a cleaned root the rendering is the root, a separator, and the
slash-joined segments. -/
def renderPath (root : List Char) (rel : SegPath) : List Char :=
  root ++ ('/' :: (String.intercalate ("/") rel).toList)

/-- The entries the WalkFiles filter keeps: regular files at depth at most
two below the root. -/
def fileLe2 (e : SegPath × Bool) : Bool := !e.2 && decide (e.1.length ≤ 2)

/-- What a WalkDirs traversal delivers from the subtree of one entry at a
(non-root-level) relative path. -/
def dirsAtN (rel : SegPath) : FNode → List (SegPath × Bool)
| .file _ _ => []
| .dir _ _ k => (rel, true) :: dirsRefK rel k

/-- The result a WalkDirs traversal of one non-root-level entry reports to
the loop of its containing directory. -/
def dirsResN (rel : SegPath) : FNode → WalkRes
| .file _ _ => if rel.length = 1 then .ok else .skipDir
| .dir _ _ k => if hasFileK k then .skipDir else .ok

/-- Whether the node at a canonical path is a directory. -/
def isDirAt (fs : FNode) (q : SegPath) : Bool :=
  match lookupNode fs q with
  | some (.dir _ _ _) => true
  | _ => false

/-- The permission mode of the directory at a canonical path, if any. -/
def dirModeAt (fs : FNode) (q : SegPath) : Option Nat :=
  match lookupNode fs q with
  | some (.dir m _ _) => some m
  | _ => none

/-- Induction motive: a pure-visitor walk of one node factors through the
collecting walk. -/
def simNprop (n : FNode) : Prop :=
  ∀ (σ : Type) (g : σ → SegPath × Bool → σ) (wt : WalkType) (rel : SegPath) (s : σ),
    walkNode wt (pureVisit g) s rel n =
      ((walkNode wt (pureVisit fun l e => l ++ [e]) [] rel n).1.foldl g s,
       (walkNode wt (pureVisit fun l e => l ++ [e]) [] rel n).2)

/-- Induction motive: the same factoring over a listing. -/
def simKprop (k : Kids) : Prop :=
  ∀ (σ : Type) (g : σ → SegPath × Bool → σ) (wt : WalkType) (rel : SegPath) (s : σ),
    walkKids wt (pureVisit g) s rel k =
      ((walkKids wt (pureVisit fun l e => l ++ [e]) [] rel k).1.foldl g s,
       (walkKids wt (pureVisit fun l e => l ++ [e]) [] rel k).2)

/-- Induction motive: a WalkBoth traversal of one readable node delivers
its preorder listing. -/
def bothNprop (n : FNode) : Prop :=
  ∀ rel, allReadable n = true →
    walkNode .both collectV [] rel n = (preNode rel n, .ok)

/-- Induction motive: the same over a listing. -/
def bothKprop (k : Kids) : Prop :=
  ∀ rel, allReadableK k = true →
    walkKids .both collectV [] rel k = (preKids rel k, .ok)

/-- Induction motive: a WalkFiles traversal of one node at depth one or two
delivers the files of its preorder listing that sit at depth at most two. -/
def filesNprop (n : FNode) : Prop :=
  ∀ rel, allReadable n = true → 1 ≤ rel.length → rel.length ≤ 2 →
    walkNode .files collectV [] rel n =
      ((preNode rel n).filter fileLe2,
       if isDirN n && rel.length == 2 then .skipDir else .ok)

/-- Induction motive: the same over a listing at depth at most one. -/
def filesKprop (k : Kids) : Prop :=
  ∀ rel, allReadableK k = true → rel.length ≤ 1 →
    walkKids .files collectV [] rel k = ((preKids rel k).filter fileLe2, .ok)

/-- Induction motive: a WalkDirs traversal of a non-root-level node. -/
def dirsNprop (n : FNode) : Prop :=
  ∀ rel, allReadable n = true → 1 ≤ rel.length →
    walkNode .dirs collectV [] rel n = (dirsAtN rel n, dirsResN rel n)

/-- Induction motive: a WalkDirs traversal of a non-root directory listing
stops at its first file. -/
def dirsKprop (k : Kids) : Prop :=
  ∀ rel, allReadableK k = true → 1 ≤ rel.length →
    walkKids .dirs collectV [] rel k =
      (dirsRefK rel k, if hasFileK k then .skipDir else .ok)

/-- Induction motive: a WalkDirs traversal of the root listing. -/
def dirs0Kprop (k : Kids) : Prop :=
  allReadableK k = true →
    walkKids .dirs collectV [] [] k = (dirsRefRoot k, .ok)

/-- Induction motive: preorder entries of a subtree lie strictly below its
relative path in depth (used over listings). -/
def lenKprop (k : Kids) : Prop :=
  ∀ rel e, e ∈ preKids rel k → rel.length < e.1.length

/-- Induction motive: preorder entries of a node lie at or below it. -/
def lenNprop (n : FNode) : Prop :=
  ∀ rel e, e ∈ preNode rel n → rel.length ≤ e.1.length

/-- Induction motive: with well-formed names, the preorder paths of a node
are distinct and extend the node's own relative path. -/
def ndNprop (n : FNode) : Prop :=
  ∀ rel, wfNames n = true →
    ((preNode rel n).map Prod.fst).Nodup ∧
    ∀ p ∈ (preNode rel n).map Prod.fst, ∃ t, p = rel ++ t

/-- Induction motive: over a listing with distinct names, the preorder
paths are distinct and each one extends the relative path by one of the
listing's names. -/
def ndKprop (k : Kids) : Prop :=
  ∀ rel, dupFree (namesK k) = true → wfNamesK k = true →
    ((preKids rel k).map Prod.fst).Nodup ∧
    ∀ p ∈ (preKids rel k).map Prod.fst,
      ∃ nm t, (namesK k).contains nm = true ∧ p = rel ++ nm :: t

/-- Induction motive: when no listing below places a directory after a
file, the WalkDirs reference of one non-root entry is exactly the
directories of its preorder listing. -/
def wpNprop (n : FNode) : Prop :=
  ∀ rel, wpN n = true → dirsAtN rel n = (preNode rel n).filter (fun e => e.2)

/-- Induction motive: the same over a non-root listing. -/
def wpKprop (k : Kids) : Prop :=
  ∀ rel, noDirAfterFileK k = true → wpK k = true →
    dirsRefK rel k = (preKids rel k).filter (fun e => e.2)

/-- Induction motive: the same over the root listing. -/
def wp0Kprop (k : Kids) : Prop :=
  wpK k = true → dirsRefRoot k = (preKids [] k).filter (fun e => e.2)

/-- The directory tree of the walking tests: an empty directory named dir
and a directory named log holding three log files. -/
def tLog : FNode :=
  .dir 493 true (.cons ("dir") (.dir 493 true .nil)
    (.cons ("log") (.dir 493 true
      (.cons ("a.log") (.file ("a") 420)
      (.cons ("b.log") (.file ("b") 420)
      (.cons ("c.log") (.file ("c") 420) .nil)))) .nil))

/-- A tree with a single regular file three levels below the root. -/
def cexDeepFile : FNode :=
  .dir 493 true (.cons ("d1") (.dir 493 true (.cons ("d2")
    (.dir 493 true (.cons ("f") (.file ("x") 420) .nil)) .nil)) .nil)

/-- A tree whose top-level directory a lists a file before a sibling
subdirectory (listing order is lexical: b.txt before c). -/
def cexDirAfterFile : FNode :=
  .dir 493 true (.cons ("a") (.dir 493 true
    (.cons ("b.txt") (.file ("x") 420)
    (.cons ("c") (.dir 493 true .nil) .nil))) .nil)

/-- The same tree with the file removed. -/
def cexDirAfterFileNoFile : FNode :=
  .dir 493 true (.cons ("a") (.dir 493 true
    (.cons ("c") (.dir 493 true .nil) .nil)) .nil)

/-- A root holding one file and one unreadable directory (in lexical
order), so that a walk delivers one entry and then fails. -/
def cexCountPartial : FNode :=
  .dir 493 true (.cons ("a.txt") (.file ("x") 420)
    (.cons ("b") (.dir 493 false .nil) .nil))

/-- An empty root directory. -/
def fsEmptyRoot : FNode := .dir 493 true .nil

/-- A path whose first component does not exist but whose cleaned form
starts elsewhere: a/../b/c cleans to b/c with cleaned parent b, while the
operating system resolves the literal path through the missing a. -/
def pOpenRetry : SegPath := ["a", "..", "b", "c"]

/-- A root holding a regular file a.txt and a directory d. -/
def fsCopy : FNode :=
  .dir 493 true (.cons ("a.txt") (.file ("hello") 420)
    (.cons ("d") (.dir 493 true .nil) .nil))

/-- A root holding a regular file a.txt and a directory d that already
contains a subdirectory also named a.txt. -/
def fsCopySub : FNode :=
  .dir 493 true (.cons ("a.txt") (.file ("hello") 420)
    (.cons ("d") (.dir 493 true (.cons ("a.txt") (.dir 493 true .nil) .nil)) .nil))

/-- A root holding a source tree with a file and a nested subdirectory. -/
def fsCopyDeep : FNode :=
  .dir 493 true
    (.cons ("src") (.dir 493 true
      (.cons ("f.txt") (.file ("F") 420)
      (.cons ("sub") (.dir 493 true (.cons ("g.txt") (.file ("G") 416) .nil)) .nil))) .nil)

/-- The state after the opener of path.go has created the missing ancestor
of the cleaned parent of the two-segment path a b inside an empty root. -/
def fsARetry : FNode := .dir 493 true (.cons ("a") (.dir 493 true .nil) .nil)

/-- Induction motive: under an all-files listing the directory filter of
its preorder entries is empty. -/
def afKprop (k : Kids) : Prop :=
  ∀ rel, allFilesKids k = true → (preKids rel k).filter (fun e => e.2) = []

theorem foldl_appendOne {α : Type} (l : List α) (init : List α) :
    l.foldl (fun acc e => acc ++ [e]) init = init ++ l := by
  induction l generalizing init with
  | nil => simp
  | cons x xs ih => simp [List.foldl_cons, ih]

theorem foldl_countOne {α : Type} (l : List α) (a : Nat) :
    l.foldl (fun c _ => c + 1) a = a + l.length := by
  induction l generalizing a with
  | nil => simp
  | cons x xs ih => simp [List.foldl_cons, ih]; omega

theorem simFileCase (content : String) (mode : Nat) : simNprop (.file content mode) := by
  intro σ g wt rel s
  cases wt <;> simp [walkNode, pureVisit]

theorem simDirCase (md : Nat) (r : Bool) (cs : Kids) (ih : simKprop cs) :
    simNprop (.dir md r cs) := by
  intro σ g wt rel s
  cases r with
  | false => simp [walkNode]
  | true =>
    have hshift := ih (List (SegPath × Bool)) (fun l e => l ++ [e]) wt rel [(rel, true)]
    cases wt with
    | files =>
      by_cases hl : rel.length = 1
      · simpa [walkNode, hl] using ih σ g .files rel s
      · simp [walkNode, hl]
    | both =>
      have hk := ih σ g .both rel (g s (rel, true))
      simp only [walkNode, pureVisit, foldl_appendOne, List.nil_append] at hk hshift ⊢
      simp only [reduceCtorEq, Bool.not_true, Bool.false_eq_true, if_false,
        reduceIte] at hk hshift ⊢
      rw [hk, hshift]
      simp [List.foldl_cons]
    | dirs =>
      have hk := ih σ g .dirs rel (g s (rel, true))
      simp only [walkNode, pureVisit, foldl_appendOne, List.nil_append] at hk hshift ⊢
      simp only [reduceCtorEq, Bool.not_true, Bool.false_eq_true, if_false,
        reduceIte] at hk hshift ⊢
      rw [hk, hshift]
      simp [List.foldl_cons]

theorem simNilCase : simKprop .nil := by
  intro σ g wt rel s
  simp [walkKids]

theorem simConsCase (nm : String) (c : FNode) (rest : Kids)
    (ihc : simNprop c) (ihrest : simKprop rest) : simKprop (.cons nm c rest) := by
  intro σ g wt rel s
  have hc := ihc σ g wt (rel ++ [nm]) s
  rcases hN : walkNode wt (pureVisit fun l e => l ++ [e]) [] (rel ++ [nm]) c with ⟨l₁, r₁⟩
  rw [hN] at hc
  simp only [walkKids]
  rw [hc, hN]
  cases r₁ with
  | ok =>
    dsimp only
    have hr := ihrest σ g wt rel (l₁.foldl g s)
    have hrL := ihrest (List (SegPath × Bool)) (fun l e => l ++ [e]) wt rel l₁
    simp only [foldl_appendOne] at hrL
    rw [hr, hrL]
    rcases hK : walkKids wt (pureVisit fun l e => l ++ [e]) [] rel rest with ⟨l₂, r₂⟩
    simp [List.foldl_append]
  | skipDir =>
    cases c with
    | file cc mm =>
      dsimp only
    | dir dmd dr dk =>
      dsimp only
      have hr := ihrest σ g wt rel (l₁.foldl g s)
      have hrL := ihrest (List (SegPath × Bool)) (fun l e => l ++ [e]) wt rel l₁
      simp only [foldl_appendOne] at hrL
      rw [hr, hrL]
      rcases hK : walkKids wt (pureVisit fun l e => l ++ [e]) [] rel rest with ⟨l₂, r₂⟩
      simp [List.foldl_append]
  | fail e =>
    dsimp only

theorem simN : ∀ n, simNprop n :=
  fun n => @FNode.rec simNprop simKprop simFileCase simDirCase simNilCase simConsCase n

theorem simK : ∀ k, simKprop k :=
  fun k => @Kids.rec simNprop simKprop simFileCase simDirCase simNilCase simConsCase k

/-- Collecting from an arbitrary accumulator shifts by list append. -/
theorem walkKids_shift (wt : WalkType) (k : Kids) (rel : SegPath) (s : List (SegPath × Bool)) :
    walkKids wt collectV s rel k =
      (s ++ (walkKids wt collectV [] rel k).1, (walkKids wt collectV [] rel k).2) := by
  have h := simK k (List (SegPath × Bool)) (fun l e => l ++ [e]) wt rel s
  rw [foldl_appendOne] at h
  exact h

/-- Collecting from an arbitrary accumulator shifts by list append. -/
theorem walkNode_shift (wt : WalkType) (n : FNode) (rel : SegPath) (s : List (SegPath × Bool)) :
    walkNode wt collectV s rel n =
      (s ++ (walkNode wt collectV [] rel n).1, (walkNode wt collectV [] rel n).2) := by
  have h := simN n (List (SegPath × Bool)) (fun l e => l ++ [e]) wt rel s
  rw [foldl_appendOne] at h
  exact h

/-- The collecting visitor appends the delivered entry. -/
theorem collectV_apply (l : List (SegPath × Bool)) (e : SegPath × Bool) :
    collectV l e = (l ++ [e], none) := rfl

theorem lenFileCase (c : String) (m : Nat) : lenNprop (.file c m) := by
  intro rel e he
  simp [preNode] at he
  subst he
  simp

theorem lenDirCase (md : Nat) (r : Bool) (cs : Kids) (ih : lenKprop cs) :
    lenNprop (.dir md r cs) := by
  intro rel e he
  simp [preNode] at he
  rcases he with he | he
  · subst he; simp
  · exact Nat.le_of_lt (ih rel e he)

theorem lenNilCase : lenKprop .nil := by
  intro rel e he
  simp [preKids] at he

theorem lenConsCase (nm : String) (c : FNode) (rest : Kids)
    (ihc : lenNprop c) (ihrest : lenKprop rest) : lenKprop (.cons nm c rest) := by
  intro rel e he
  simp only [preKids, List.mem_append] at he
  rcases he with he | he
  · have h := ihc (rel ++ [nm]) e he
    simp at h
    omega
  · exact ihrest rel e he

theorem lenN : ∀ n, lenNprop n :=
  fun n => @FNode.rec lenNprop lenKprop lenFileCase lenDirCase lenNilCase lenConsCase n

theorem lenK : ∀ k, lenKprop k :=
  fun k => @Kids.rec lenNprop lenKprop lenFileCase lenDirCase lenNilCase lenConsCase k

theorem bothFileCase (c : String) (m : Nat) : bothNprop (.file c m) := by
  intro rel h
  simp [walkNode, collectV_apply, preNode]

theorem bothDirCase (md : Nat) (r : Bool) (cs : Kids) (ih : bothKprop cs) :
    bothNprop (.dir md r cs) := by
  intro rel h
  simp only [allReadable, Bool.and_eq_true] at h
  obtain ⟨hr, hk⟩ := h
  subst hr
  simp only [walkNode, collectV_apply, List.nil_append, Bool.not_true,
    Bool.false_eq_true, if_false, reduceCtorEq, reduceIte]
  rw [walkKids_shift, ih rel hk]
  simp [preNode]

theorem bothNilCase : bothKprop .nil := by
  intro rel h
  simp [walkKids, preKids]

theorem bothConsCase (nm : String) (c : FNode) (rest : Kids)
    (ihc : bothNprop c) (ihrest : bothKprop rest) : bothKprop (.cons nm c rest) := by
  intro rel h
  simp only [allReadableK, Bool.and_eq_true] at h
  obtain ⟨hcR, hrest⟩ := h
  simp only [walkKids]
  rw [ihc (rel ++ [nm]) hcR]
  dsimp only
  rw [walkKids_shift, ihrest rel hrest]
  simp [preKids]

theorem bothN : ∀ n, bothNprop n :=
  fun n => @FNode.rec bothNprop bothKprop bothFileCase bothDirCase bothNilCase bothConsCase n

theorem bothK : ∀ k, bothKprop k :=
  fun k => @Kids.rec bothNprop bothKprop bothFileCase bothDirCase bothNilCase bothConsCase k

theorem filesFileCase (c : String) (m : Nat) : filesNprop (.file c m) := by
  intro rel h h1 h2
  simp [walkNode, collectV_apply, preNode, fileLe2, isDirN, h2]

theorem filesDirCase (md : Nat) (r : Bool) (cs : Kids) (ih : filesKprop cs) :
    filesNprop (.dir md r cs) := by
  intro rel h h1 h2
  simp only [allReadable, Bool.and_eq_true] at h
  obtain ⟨hr, hk⟩ := h
  subst hr
  by_cases hl : rel.length = 1
  · have hK := ih rel hk (by omega)
    have h2f : (rel.length == 2) = false := by simp [hl]
    simp only [walkNode, Bool.not_true, Bool.false_eq_true, if_false, if_true, hl,
      reduceCtorEq, reduceIte, isDirN, Bool.true_and, h2f]
    rw [hK]
    simp [preNode, fileLe2]
  · have hl2 : rel.length = 2 := by omega
    have hemp : (preKids rel cs).filter fileLe2 = [] := by
      rw [List.filter_eq_nil_iff]
      intro e he
      have := lenK cs rel e he
      simp [fileLe2]
      intro _
      omega
    have h2t : (rel.length == 2) = true := by simp [hl2]
    simp [walkNode, hl, preNode, hemp, fileLe2, isDirN, h2t]

theorem filesNilCase : filesKprop .nil := by
  intro rel h hl
  simp [walkKids, preKids]

theorem filesConsCase (nm : String) (c : FNode) (rest : Kids)
    (ihc : filesNprop c) (ihrest : filesKprop rest) : filesKprop (.cons nm c rest) := by
  intro rel h hl
  simp only [allReadableK, Bool.and_eq_true] at h
  obtain ⟨hcR, hrest⟩ := h
  have hN := ihc (rel ++ [nm]) hcR (by simp) (by simp; omega)
  simp only [walkKids]
  cases c with
  | file cc mm =>
    simp only [isDirN, Bool.false_and, Bool.false_eq_true, if_false, reduceIte] at hN
    rw [hN]
    dsimp only
    rw [walkKids_shift, ihrest rel hrest hl]
    simp [preKids, List.filter_append]
  | dir dmd dr dk =>
    simp only [isDirN, Bool.true_and] at hN
    by_cases h2 : ((rel ++ [nm]).length == 2) = true
    · rw [h2] at hN
      simp only [if_true, reduceIte] at hN
      rw [hN]
      dsimp only
      rw [walkKids_shift, ihrest rel hrest hl]
      simp [preKids, List.filter_append]
    · have h2f : ((rel ++ [nm]).length == 2) = false := by
        cases hx : ((rel ++ [nm]).length == 2) with
        | false => rfl
        | true => exact absurd hx h2
      rw [h2f] at hN
      simp only [Bool.false_eq_true, if_false, reduceIte] at hN
      rw [hN]
      dsimp only
      rw [walkKids_shift, ihrest rel hrest hl]
      simp [preKids, List.filter_append]

theorem filesN : ∀ n, filesNprop n :=
  fun n => @FNode.rec filesNprop filesKprop filesFileCase filesDirCase filesNilCase filesConsCase n

theorem filesK : ∀ k, filesKprop k :=
  fun k => @Kids.rec filesNprop filesKprop filesFileCase filesDirCase filesNilCase filesConsCase k

theorem dirsFileCase (c : String) (m : Nat) : dirsNprop (.file c m) := by
  intro rel h h1
  simp [walkNode, dirsAtN, dirsResN]

theorem dirsDirCase (md : Nat) (r : Bool) (cs : Kids) (ih : dirsKprop cs) :
    dirsNprop (.dir md r cs) := by
  intro rel h h1
  simp only [allReadable, Bool.and_eq_true] at h
  obtain ⟨hr, hk⟩ := h
  subst hr
  simp only [walkNode, collectV_apply, List.nil_append, Bool.not_true,
    Bool.false_eq_true, if_false, reduceCtorEq, reduceIte]
  rw [walkKids_shift, ih rel hk h1]
  simp [dirsAtN, dirsResN]

theorem dirsNilCase : dirsKprop .nil := by
  intro rel h h1
  simp [walkKids, dirsRefK, hasFileK]

theorem dirsConsCase (nm : String) (c : FNode) (rest : Kids)
    (ihc : dirsNprop c) (ihrest : dirsKprop rest) : dirsKprop (.cons nm c rest) := by
  intro rel h h1
  simp only [allReadableK, Bool.and_eq_true] at h
  obtain ⟨hcR, hrest⟩ := h
  have hN := ihc (rel ++ [nm]) hcR (by simp)
  simp only [walkKids]
  cases c with
  | file cc mm =>
    have hne : ¬((rel ++ [nm]).length = 1) := by
      simp only [List.length_append, List.length_cons, List.length_nil]
      omega
    simp only [dirsAtN, dirsResN, hne, if_false, reduceIte] at hN
    rw [hN]
    dsimp only
    simp [dirsRefK, hasFileK]
  | dir dmd dr dk =>
    simp only [dirsAtN, dirsResN] at hN
    by_cases hf : hasFileK dk = true
    · simp only [hf, if_true, reduceIte] at hN
      rw [hN]
      dsimp only
      rw [walkKids_shift, ihrest rel hrest h1]
      simp [dirsRefK, hasFileK]
    · have hff : hasFileK dk = false := by
        cases hx : hasFileK dk with
        | false => rfl
        | true => exact absurd hx hf
      simp only [hff, Bool.false_eq_true, if_false, reduceIte] at hN
      rw [hN]
      dsimp only
      rw [walkKids_shift, ihrest rel hrest h1]
      simp [dirsRefK, hasFileK]

theorem dirsN : ∀ n, dirsNprop n :=
  fun n => @FNode.rec dirsNprop dirsKprop dirsFileCase dirsDirCase dirsNilCase dirsConsCase n

theorem dirsK : ∀ k, dirsKprop k :=
  fun k => @Kids.rec dirsNprop dirsKprop dirsFileCase dirsDirCase dirsNilCase dirsConsCase k

theorem dirs0NilCase : dirs0Kprop .nil := by
  intro h
  simp [walkKids, dirsRefRoot]

theorem dirs0ConsCase (nm : String) (c : FNode) (rest : Kids)
    (ihrest : dirs0Kprop rest) : dirs0Kprop (.cons nm c rest) := by
  intro h
  simp only [allReadableK, Bool.and_eq_true] at h
  obtain ⟨hcR, hrest⟩ := h
  simp only [walkKids]
  cases c with
  | file cc mm =>
    simp only [walkNode, List.nil_append, List.length_cons, List.length_nil,
      reduceCtorEq, reduceIte, if_true]
    rw [ihrest hrest]
    simp [dirsRefRoot]
  | dir dmd dr dk =>
    have hN := dirsN (.dir dmd dr dk) ([] ++ [nm]) hcR (by simp)
    simp only [dirsAtN, dirsResN] at hN
    by_cases hf : hasFileK dk = true
    · simp only [hf, if_true, reduceIte] at hN
      rw [hN]
      dsimp only
      rw [walkKids_shift, ihrest hrest]
      simp [dirsRefRoot]
    · have hff : hasFileK dk = false := by
        cases hx : hasFileK dk with
        | false => rfl
        | true => exact absurd hx hf
      simp only [hff, Bool.false_eq_true, if_false, reduceIte] at hN
      rw [hN]
      dsimp only
      rw [walkKids_shift, ihrest hrest]
      simp [dirsRefRoot]

theorem dirs0K : ∀ k, dirs0Kprop k :=
  fun k => @Kids.rec (fun _ => True) dirs0Kprop (fun _ _ => trivial) (fun _ _ _ _ => trivial)
    dirs0NilCase (fun nm c rest _ ih => dirs0ConsCase nm c rest ih) k

theorem afNilCase : afKprop .nil := by
  intro rel h
  simp [preKids]

theorem afConsCase (nm : String) (c : FNode) (rest : Kids)
    (ihrest : afKprop rest) : afKprop (.cons nm c rest) := by
  intro rel h
  cases c with
  | file cc mm =>
    simp only [allFilesKids, Bool.true_and] at h
    simp [preKids, preNode, List.filter_append, ihrest rel h]
  | dir dmd dr dk =>
    simp [allFilesKids] at h

theorem afK : ∀ k, afKprop k :=
  fun k => @Kids.rec (fun _ => True) afKprop (fun _ _ => trivial) (fun _ _ _ _ => trivial)
    afNilCase (fun nm c rest _ ih => afConsCase nm c rest ih) k

theorem wpFileCase (c : String) (m : Nat) : wpNprop (.file c m) := by
  intro rel h
  simp [dirsAtN, preNode]

theorem wpDirCase (md : Nat) (r : Bool) (cs : Kids) (ih : wpKprop cs) :
    wpNprop (.dir md r cs) := by
  intro rel h
  simp only [wpN, Bool.and_eq_true] at h
  obtain ⟨hnd, hw⟩ := h
  simp [dirsAtN, preNode, ih rel hnd hw]

theorem wpNilCase : wpKprop .nil := by
  intro rel hnd hw
  simp [dirsRefK, preKids]

theorem wpConsCase (nm : String) (c : FNode) (rest : Kids)
    (ihc : wpNprop c) (ihrest : wpKprop rest) : wpKprop (.cons nm c rest) := by
  intro rel hnd hw
  simp only [wpK, Bool.and_eq_true] at hw
  obtain ⟨hwc, hwrest⟩ := hw
  cases c with
  | file cc mm =>
    simp only [noDirAfterFileK] at hnd
    simp [dirsRefK, preKids, preNode, List.filter_append, afK rest rel hnd]
  | dir dmd dr dk =>
    simp only [noDirAfterFileK] at hnd
    have hc := ihc (rel ++ [nm]) hwc
    simp only [dirsAtN] at hc
    simp [dirsRefK, preKids, preNode, List.filter_append, ihrest rel hnd hwrest]
    simp [preNode] at hc
    exact hc

theorem wpNthm : ∀ n, wpNprop n :=
  fun n => @FNode.rec wpNprop wpKprop wpFileCase wpDirCase wpNilCase wpConsCase n

theorem wpKthm : ∀ k, wpKprop k :=
  fun k => @Kids.rec wpNprop wpKprop wpFileCase wpDirCase wpNilCase wpConsCase k

theorem wp0NilCase : wp0Kprop .nil := by
  intro h
  simp [dirsRefRoot, preKids]

theorem wp0ConsCase (nm : String) (c : FNode) (rest : Kids)
    (ihrest : wp0Kprop rest) : wp0Kprop (.cons nm c rest) := by
  intro h
  simp only [wpK, Bool.and_eq_true] at h
  obtain ⟨hwc, hwrest⟩ := h
  cases c with
  | file cc mm =>
    simp [dirsRefRoot, preKids, preNode, List.filter_append, ihrest hwrest]
  | dir dmd dr dk =>
    have hc := wpNthm (.dir dmd dr dk) ([] ++ [nm]) hwc
    simp only [dirsAtN] at hc
    simp [dirsRefRoot, preKids, preNode, List.filter_append, ihrest hwrest]
    simp [preNode] at hc
    exact hc

theorem ndFileCase (c : String) (m : Nat) : ndNprop (.file c m) := by
  intro rel h
  constructor
  · simp [preNode]
  · intro p hp
    simp [preNode] at hp
    subst hp
    exact ⟨[], by simp⟩

theorem ndDirCase (md : Nat) (r : Bool) (cs : Kids) (ih : ndKprop cs) :
    ndNprop (.dir md r cs) := by
  intro rel h
  simp only [wfNames, Bool.and_eq_true] at h
  obtain ⟨hdf, hwf⟩ := h
  obtain ⟨hnd, hmem⟩ := ih rel hdf hwf
  constructor
  · simp only [preNode, List.map_cons]
    rw [List.nodup_cons]
    refine ⟨?_, hnd⟩
    intro hin
    obtain ⟨nm, t, _, heq⟩ := hmem rel hin
    have hlen := congrArg List.length heq
    simp at hlen
  · intro p hp
    simp only [preNode, List.map_cons, List.mem_cons] at hp
    rcases hp with rfl | hp
    · exact ⟨[], by simp⟩
    · obtain ⟨nm, t, _, heq⟩ := hmem p hp
      exact ⟨nm :: t, heq⟩

theorem ndNilCase : ndKprop .nil := by
  intro rel h1 h2
  constructor
  · simp [preKids]
  · intro p hp
    simp [preKids] at hp

theorem ndConsCase (nm : String) (c : FNode) (rest : Kids)
    (ihc : ndNprop c) (ihrest : ndKprop rest) : ndKprop (.cons nm c rest) := by
  intro rel hdf hwf
  simp only [namesK, dupFree, Bool.and_eq_true] at hdf
  obtain ⟨hnc, hdfr⟩ := hdf
  simp only [wfNamesK, Bool.and_eq_true] at hwf
  obtain ⟨hwc, hwrest⟩ := hwf
  obtain ⟨hndc, hmemc⟩ := ihc (rel ++ [nm]) hwc
  obtain ⟨hndr, hmemr⟩ := ihrest rel hdfr hwrest
  have hninr : nm ∉ namesK rest := by
    intro hin
    have : (namesK rest).contains nm = true := by simpa using hin
    rw [this] at hnc
    simp at hnc
  constructor
  · simp only [preKids, List.map_append]
    refine List.Nodup.append hndc hndr ?_
    intro p hpA hpB
    obtain ⟨t, rfl⟩ := hmemc p hpA
    obtain ⟨nm2, t2, hc2, heq⟩ := hmemr _ hpB
    rw [List.append_assoc] at heq
    have heq2 : ([nm] ++ t) = nm2 :: t2 := List.append_cancel_left heq
    have : nm = nm2 := by injection heq2
    subst this
    exact hninr (by simpa using hc2)
  · intro p hp
    simp only [preKids, List.map_append, List.mem_append] at hp
    rcases hp with hp | hp
    · obtain ⟨t, rfl⟩ := hmemc p hp
      refine ⟨nm, t, by simp [namesK], by rw [List.append_assoc]; rfl⟩
    · obtain ⟨nm2, t2, hc2, heq⟩ := hmemr p hp
      refine ⟨nm2, t2, ?_, heq⟩
      have : nm2 ∈ namesK rest := by simpa using hc2
      simp [namesK]
      right
      exact this

theorem ndN : ∀ n, ndNprop n :=
  fun n => @FNode.rec ndNprop ndKprop ndFileCase ndDirCase ndNilCase ndConsCase n

theorem ndK : ∀ k, ndKprop k :=
  fun k => @Kids.rec ndNprop ndKprop ndFileCase ndDirCase ndNilCase ndConsCase k

theorem wp0K : ∀ k, wp0Kprop k :=
  fun k => @Kids.rec (fun _ => True) wp0Kprop (fun _ _ => trivial) (fun _ _ _ _ => trivial)
    wp0NilCase (fun nm c rest _ ih => wp0ConsCase nm c rest ih) k

theorem statAt_nil (fs : FNode) : statAt fs [] = some fs := by
  simp [statAt, resolveFrom, lookupNode]

theorem fileExists_elim (fs : FNode) (p : SegPath) (h : FileExists fs p = true) :
    ∃ c m, statAt fs p = some (.file c m) := by
  unfold FileExists at h
  cases hs : statAt fs p with
  | none => rw [hs] at h; simp at h
  | some n =>
    cases n with
    | file c m => exact ⟨c, m, rfl⟩
    | dir md r cs => rw [hs] at h; simp at h

theorem dirExists_elim (fs : FNode) (p : SegPath) (h : DirExists fs p = true) :
    ∃ md r cs, statAt fs p = some (.dir md r cs) := by
  unfold DirExists at h
  cases hs : statAt fs p with
  | none => rw [hs] at h; simp at h
  | some n =>
    cases n with
    | file c m => rw [hs] at h; simp at h
    | dir md r cs => exact ⟨md, r, cs, rfl⟩

theorem fileExists_not_dir (fs : FNode) (p : SegPath) (h : FileExists fs p = true) :
    DirExists fs p = false := by
  obtain ⟨c, m, hs⟩ := fileExists_elim fs p h
  simp [DirExists, hs]

theorem dirExists_not_file (fs : FNode) (p : SegPath) (h : DirExists fs p = true) :
    FileExists fs p = false := by
  obtain ⟨md, r, cs, hs⟩ := dirExists_elim fs p h
  simp [FileExists, hs]

theorem fileExists_pathExists (fs : FNode) (p : SegPath) (h : FileExists fs p = true) :
    pathExists fs p = true := by
  obtain ⟨c, m, hs⟩ := fileExists_elim fs p h
  simp [pathExists, hs]

theorem dirExists_pathExists (fs : FNode) (p : SegPath) (h : DirExists fs p = true) :
    pathExists fs p = true := by
  obtain ⟨md, r, cs, hs⟩ := dirExists_elim fs p h
  simp [pathExists, hs]

theorem dirExists_file_root (c : String) (m : Nat) (q : SegPath) :
    DirExists (.file c m) q = false := by
  unfold DirExists statAt
  cases hres : resolveFrom (.file c m) [] q with
  | error e => simp
  | ok cp =>
    cases cp with
    | nil => simp [lookupNode]
    | cons x xs => simp [lookupNode]

theorem fileExists_resolve (fs : FNode) (p : SegPath) (h : FileExists fs p = true) :
    ∃ cp c m, resolveFrom fs [] p = .ok cp ∧ lookupNode fs cp = some (.file c m) := by
  obtain ⟨c, m, hs⟩ := fileExists_elim fs p h
  unfold statAt at hs
  cases hres : resolveFrom fs [] p with
  | error e => rw [hres] at hs; simp at hs
  | ok cp =>
    rw [hres] at hs
    exact ⟨cp, c, m, rfl, hs⟩

theorem osOpen_read_of_file (fs : FNode) (p : SegPath) (m : Nat)
    (h : FileExists fs p = true) : osOpenFile fs p .read m = (.ok (), fs) := by
  obtain ⟨cp, c, mm, hres, hlook⟩ := fileExists_resolve fs p h
  simp only [osOpenFile, hres, hlook]

theorem osOpen_error_eq (fs : FNode) (p : SegPath) (f : Flag) (m : Nat) (e : OsErr)
    (h : (osOpenFile fs p f m).1 = .error e) : osOpenFile fs p f m = (.error e, fs) := by
  unfold osOpenFile at h ⊢
  cases hres : resolveFrom fs [] p with
  | error e2 => simp_all
  | ok cp =>
    cases hl : lookupNode fs cp with
    | none => cases f <;> simp_all
    | some n => cases n <;> cases f <;> simp_all

theorem osOpen_read_snd (fs : FNode) (p : SegPath) (m : Nat) :
    (osOpenFile fs p .read m).2 = fs := by
  unfold osOpenFile
  cases hres : resolveFrom fs [] p with
  | error e2 => rfl
  | ok cp =>
    dsimp only
    cases hl : lookupNode fs cp with
    | none => rfl
    | some n => cases n <;> rfl


theorem exceptMap_ok {x : Except OsErr FNode} {f : FNode → FNode} {y : FNode}
    (h : x.map f = .ok y) : ∃ z, x = .ok z ∧ y = f z := by
  cases x with
  | ok z => exact ⟨z, rfl, by simpa [Except.map] using h.symm⟩
  | error e => simp [Except.map] at h

theorem find_set_self : ∀ (cs : Kids) (s : String) (n : FNode),
    Kids.find (Kids.set cs s n) s = some n :=
  fun cs => @Kids.rec (fun _ => True)
    (fun k => ∀ s n, Kids.find (Kids.set k s n) s = some n)
    (fun _ _ => trivial) (fun _ _ _ _ => trivial)
    (by
      intro s n
      simp [Kids.set, Kids.find])
    (by
      intro nm c rest _ ih s n
      by_cases hnm : nm = s
      · simp [Kids.set, Kids.find, hnm]
      · simp [Kids.set, Kids.find, hnm, ih s n]) cs

theorem mkdirAllGo_dir_shape (p : SegPath) (md : Nat) (r : Bool) (cs : Kids) (n₂ : FNode)
    (h : mkdirAllGo p (.dir md r cs) = .ok n₂) : ∃ cs₂, n₂ = .dir md r cs₂ := by
  cases p with
  | nil =>
    simp [mkdirAllGo] at h
    exact ⟨cs, h.symm⟩
  | cons seg rest =>
    simp only [mkdirAllGo] at h
    split at h
    · obtain ⟨z, _, hy⟩ := exceptMap_ok h
      exact ⟨Kids.set cs seg z, hy⟩
    · obtain ⟨z, _, hy⟩ := exceptMap_ok h
      exact ⟨Kids.set cs seg z, hy⟩

theorem mkdirAllGo_spec (p : SegPath) :
    ∀ (n fs₂ : FNode), mkdirAllGo p n = .ok fs₂ → ∀ q, q <+: p →
      isDirAt fs₂ q = true ∧
      (lookupNode n q = none → dirModeAt fs₂ q = some defaultDirMode) := by
  induction p with
  | nil =>
    intro n fs₂ h q hq
    rw [ List.prefix_nil] at hq
    subst hq
    cases n with
    | file c m => simp [mkdirAllGo] at h
    | dir md r cs =>
      simp [mkdirAllGo] at h
      subst h
      simp [isDirAt, lookupNode]
  | cons seg rest ih =>
    intro n fs₂ h q hq
    cases n with
    | file c m => simp [mkdirAllGo] at h
    | dir md r cs =>
      simp only [mkdirAllGo] at h
      split at h
      case _ c hf =>
        obtain ⟨z, hz, hy⟩ := exceptMap_ok h
        subst hy
        cases q with
        | nil =>
          refine ⟨by simp [isDirAt, lookupNode], ?_⟩
          intro hn
          simp [lookupNode] at hn
        | cons q0 q2 =>
          rw [List.cons_prefix_cons] at hq
          obtain ⟨rfl, hq2⟩ := hq
          obtain ⟨h1, h2⟩ := ih c z hz q2 hq2
          refine ⟨?_, ?_⟩
          · simpa [isDirAt, lookupNode, find_set_self] using h1
          · intro hn
            simp only [lookupNode, hf] at hn
            have := h2 hn
            simpa [dirModeAt, lookupNode, find_set_self] using this
      case _ hf =>
        obtain ⟨z, hz, hy⟩ := exceptMap_ok h
        subst hy
        cases q with
        | nil =>
          refine ⟨by simp [isDirAt, lookupNode], ?_⟩
          intro hn
          simp [lookupNode] at hn
        | cons q0 q2 =>
          rw [List.cons_prefix_cons] at hq
          obtain ⟨rfl, hq2⟩ := hq
          obtain ⟨h1, h2⟩ := ih (.dir defaultDirMode true .nil) z hz q2 hq2
          refine ⟨?_, ?_⟩
          · simpa [isDirAt, lookupNode, find_set_self] using h1
          · intro hn
            cases q2 with
            | nil =>
              obtain ⟨cs₂, hcs₂⟩ := mkdirAllGo_dir_shape rest defaultDirMode true .nil z hz
              subst hcs₂
              simp [dirModeAt, lookupNode, find_set_self]
            | cons q3 q4 =>
              have hn0 : lookupNode (FNode.dir defaultDirMode true Kids.nil) (q3 :: q4) = none := by
                simp [lookupNode, Kids.find]
              have := h2 hn0
              simpa [dirModeAt, lookupNode, find_set_self] using this

theorem isPrefixOf_append_self (a b : List Char) : a.isPrefixOf (a ++ b) = true := by
  induction a with
  | nil => simp [List.isPrefixOf]
  | cons x xs ih => simp [List.isPrefixOf, ih]

theorem replaceFirst_append (a b c : List Char) : replaceFirstL (a ++ b) a c = c ++ b := by
  rw [replaceFirstL.eq_def]
  simp [isPrefixOf_append_self]

/-- The root-level walk with a pure visitor factors through the collecting
walk. -/
theorem walkRootNode_sim (wt : WalkType) (n : FNode) {σ : Type}
    (g : σ → SegPath × Bool → σ) (s : σ) :
    walkRootNode wt (pureVisit g) s n =
      ((walkRootNode wt collectV [] n).1.foldl g s, (walkRootNode wt collectV [] n).2) := by
  cases n with
  | file c m => simp [walkRootNode]
  | dir md r cs =>
    cases r with
    | false => simp [walkRootNode]
    | true =>
      have h := simK cs σ g wt [] s
      simp only [walkRootNode, Bool.not_true, Bool.false_eq_true, if_false, reduceIte]
      rcases hK : walkKids wt collectV [] [] cs with ⟨l₂, r₂⟩
      have hK2 : walkKids wt (pureVisit fun l e => l ++ [e]) [] [] cs = (l₂, r₂) := hK
      rw [hK2] at h
      rw [h]
      cases r₂ <;> simp

/-- Claim C1 (amended): for a tree rooted at an existing readable directory,
WalkBoth delivers every entry below the root exactly once, in preorder,
with no duplicated path when sibling names are well formed; WalkFiles
delivers zero directories but only the regular files at depth at most two
below the root (files nested deeper are lost, because a non-top-level
directory answers the walk with a skip of its whole subtree); WalkDirs
delivers zero files and exactly the directories of the reference traversal
that stops at the first regular file of every non-top-level listing (so
directories listed after such a file are not delivered). -/
theorem c1_walk_filter (t : FNode) (hd : isDirN t = true) (hr : allReadable t = true) :
    walkEntries t .both = (allEntries t, .ok ()) ∧
    walkEntries t .files = ((allEntries t).filter fileLe2, .ok ()) ∧
    walkEntries t .dirs = (dirsRef t, .ok ()) ∧
    (wfNames t = true → ((allEntries t).map Prod.fst).Nodup) := by
  cases t with
  | file c m => simp [isDirN] at hd
  | dir md r cs =>
    simp only [allReadable, Bool.and_eq_true] at hr
    obtain ⟨hrr, hk⟩ := hr
    subst hrr
    refine ⟨?_, ?_, ?_, ?_⟩
    · simp only [walkEntries, walkRootNode, Bool.not_true, Bool.false_eq_true, if_false,
        reduceIte]
      rw [bothK cs [] hk]
      simp [allEntries]
    · simp only [walkEntries, walkRootNode, Bool.not_true, Bool.false_eq_true, if_false,
        reduceIte]
      rw [filesK cs [] hk (by simp)]
      simp [allEntries]
    · simp only [walkEntries, walkRootNode, Bool.not_true, Bool.false_eq_true, if_false,
        reduceIte]
      rw [dirs0K cs hk]
      simp [allEntries, dirsRef]
    · intro hwf
      simp only [wfNames, Bool.and_eq_true] at hwf
      obtain ⟨hdf, hwfk⟩ := hwf
      simpa [allEntries] using (ndK cs [] hdf hwfk).1

/-- Witness for C1 at the walking-test tree. -/
theorem c1_walk_filter_witness :
    walkEntries tLog .files = ((allEntries tLog).filter fileLe2, .ok ()) ∧
    ((allEntries tLog).map Prod.fst).Nodup := by
  have h := c1_walk_filter tLog (by decide) (by decide)
  exact ⟨h.2.1, h.2.2.2 (by decide)⟩

/-- Counterexample to C1 as stated: a regular file three levels below the
root exists, yet walking with the files filter delivers nothing. -/
theorem c1_counterexample :
    FileExists cexDeepFile ["d1", "d2", "f"] = true ∧
    (walkEntries cexDeepFile .files).1 = [] := by
  decide

/-- Claim C2 (amended): the subtree-skip a non-top-level file triggers is
observable in general; it is unobservable exactly on trees where no
non-top-level listing places a directory after a regular file, and on
those trees walking with the directories filter delivers exactly the set
of directories below the root. -/
theorem c2_dirs_skip (t : FNode) (hd : isDirN t = true) (hr : allReadable t = true)
    (hwp : wpRoot t = true) :
    walkEntries t .dirs = ((allEntries t).filter (fun e => e.2), .ok ()) := by
  cases t with
  | file c m => simp [isDirN] at hd
  | dir md r cs =>
    simp only [allReadable, Bool.and_eq_true] at hr
    obtain ⟨hrr, hk⟩ := hr
    subst hrr
    simp only [wpRoot] at hwp
    simp only [walkEntries, walkRootNode, Bool.not_true, Bool.false_eq_true, if_false,
      reduceIte]
    rw [dirs0K cs hk]
    simp [allEntries, wp0K cs hwp]

/-- Witness for C2 at the walking-test tree, whose listings place no
directory after a file. -/
theorem c2_dirs_skip_witness :
    walkEntries tLog .dirs = ((allEntries tLog).filter (fun e => e.2), .ok ()) :=
  c2_dirs_skip tLog (by decide) (by decide) (by decide)

/-- Counterexample to C2 as stated: the directory a-c below the root
exists but is not delivered, because its sibling file b.txt precedes it in
the listing of a; removing the file makes the walk deliver it, so the
presence of regular files changes the set of directories delivered. -/
theorem c2_counterexample :
    DirExists cexDirAfterFile ["a", "c"] = true ∧
    ¬((["a", "c"], true) ∈ (walkEntries cexDirAfterFile .dirs).1) ∧
    (walkEntries cexDirAfterFileNoFile .dirs).1 = [(["a"], true), (["a", "c"], true)] := by
  decide

/-- Claim C3 (amended): Count returns a plain number and never an error;
it returns zero when the root is not currently a directory, and otherwise
the number of entries the walk delivered before finishing or failing -
after a mid-walk failure the partial count is returned, which need not be
zero. -/
theorem c3_count (fs : FNode) (p : SegPath) (wt : WalkType) :
    Count fs p wt = (walkList fs p wt).1.length ∧
    (DirExists fs p = false → Count fs p wt = 0) := by
  constructor
  · by_cases hdir : DirExists fs p = true
    · have hcount : Count fs p wt = (WalkM fs p wt (pureVisit fun c _ => c + 1) 0).1 := by
        simp only [Count, hdir, Bool.not_true, Bool.false_eq_true, if_false, reduceIte]
        rfl
      rw [hcount]
      unfold walkList WalkM
      cases hs : statAt fs p with
      | none => simp
      | some n =>
        dsimp only
        rw [walkRootNode_sim wt n (fun c _ => c + 1) 0]
        simp [foldl_countOne]
    · have hb : DirExists fs p = false := by
        cases hx : DirExists fs p
        · rfl
        · exact absurd hx hdir
      have h0 : Count fs p wt = 0 := by simp [Count, hb]
      rw [h0]
      unfold walkList WalkM
      cases hs : statAt fs p with
      | none => simp
      | some n =>
        cases n with
        | file c m => simp [walkRootNode]
        | dir md r cs =>
          exfalso
          have : DirExists fs p = true := by simp [DirExists, statAt] at hs ⊢; simp [hs]
          rw [this] at hb
          simp at hb
  · intro h
    simp [Count, h]

/-- Witness for C3 at an empty root and a missing path. -/
theorem c3_count_witness :
    Count fsEmptyRoot ["zz"] .both = (walkList fsEmptyRoot ["zz"] .both).1.length ∧
    Count fsEmptyRoot ["zz"] .both = 0 := by
  have h := c3_count fsEmptyRoot ["zz"] .both
  exact ⟨h.1, h.2 (by decide)⟩

/-- Counterexample to C3 as stated: a walk that fails midway (an unreadable
directory follows a file in the root listing) still leaves Count at the
partial value one, not zero. -/
theorem c3_counterexample :
    Count cexCountPartial [] .both = 1 ∧
    (walkList cexCountPartial [] .both).2 = .error (.osError .eacces) := by
  decide

/-- Claim C4: during a recursive tree copy, every visited entry's
destination path equals the entry's path with the literal source-root
prefix replaced by the destination root; on the root-prefixed path strings
the walk produces, the single first-occurrence substring substitution of
the source root performed by the code is exactly this prefix replacement. -/
theorem c4_replace_prefix (t : FNode) (src dest : List Char) (rel : SegPath) (b : Bool)
    (hmem : (rel, b) ∈ (walkEntries t .both).1) :
    replaceFirstL (renderPath src rel) src dest = renderPath dest rel := by
  unfold renderPath
  exact replaceFirst_append src _ dest

/-- Witness for C4 at a one-entry walk. -/
theorem c4_replace_prefix_witness :
    (["d1"], true) ∈ (walkEntries cexDeepFile .both).1 ∧
    replaceFirstL (renderPath (['s']) ["d1"]) (['s']) (['d']) = renderPath (['d']) ["d1"] :=
  ⟨by decide, c4_replace_prefix cexDeepFile (['s']) (['d']) ["d1"] true (by decide)⟩

/-- Claim C5: copyTo evaluates its cases in order: a regular-file source is
copied into an existing-directory destination under the source's basename,
or to exactly the destination path when the destination is not an existing
directory; a directory source with a destination existing as a regular
file fails with the directory-onto-file error; a directory source with an
absent or directory destination performs the recursive tree copy. -/
theorem c5_copy_dispatch (fs : FNode) (src dest : SegPath) :
    (FileExists fs src = true → DirExists fs dest = true →
       copy fs src dest = copyFiles fs src (dest ++ [basename src])) ∧
    (FileExists fs src = true → DirExists fs dest = false →
       copy fs src dest = copyFiles fs src dest) ∧
    (DirExists fs src = true → FileExists fs dest = true →
       copy fs src dest = (.error .pathIsDirectoryDestFile, fs)) ∧
    (DirExists fs src = true → (DirExists fs dest = true ∨ pathExists fs dest = false) →
       copy fs src dest = copyDirs fs src dest) := by
  refine ⟨?_, ?_, ?_, ?_⟩
  · intro h1 h2
    simp [copy, fileExists_pathExists fs src h1, h1, h2]
  · intro h1 h2
    simp [copy, fileExists_pathExists fs src h1, h1, h2]
  · intro h1 h2
    simp [copy, dirExists_pathExists fs src h1, dirExists_not_file fs src h1, h2]
  · intro h1 h2
    have hdf : FileExists fs dest = false := by
      rcases h2 with h2 | h2
      · exact dirExists_not_file fs dest h2
      · cases hx : FileExists fs dest
        · rfl
        · rw [fileExists_pathExists fs dest hx] at h2
          simp at h2
    simp [copy, dirExists_pathExists fs src h1, dirExists_not_file fs src h1, hdf]

/-- Witness for C5: the file-into-directory case and the
directory-onto-file case at a concrete root. -/
theorem c5_copy_dispatch_witness :
    copy fsCopy ["a.txt"] ["d"] = copyFiles fsCopy ["a.txt"] (["d"] ++ [basename ["a.txt"]]) ∧
    copy fsCopy ["d"] ["a.txt"] = (.error .pathIsDirectoryDestFile, fsCopy) :=
  ⟨(c5_copy_dispatch fsCopy ["a.txt"] ["d"]).1 (by decide) (by decide),
   (c5_copy_dispatch fsCopy ["d"] ["a.txt"]).2.2.1 (by decide) (by decide)⟩

/-- Claim C6: opening a path for read that is not currently a regular file
fails with the file-does-not-exist sentinel before any other check or
native open runs, and a read open never creates any file or directory (the
state is returned unchanged on every input). -/
theorem c6_open_read (fs : FNode) (p : SegPath) :
    (Open fs p).2 = fs ∧
    (FileExists fs p = false → Open fs p = (.error .fileDoesNotExist, fs)) := by
  by_cases h : FileExists fs p = true
  · constructor
    · simp only [Open, h, Bool.not_true, Bool.false_eq_true, if_false, reduceIte]
      cases p with
      | nil => simp [openF, emptyPath]
      | cons a q =>
        have hnd : DirExists fs (a :: q) = false := fileExists_not_dir fs _ h
        have hos := osOpen_read_of_file fs (a :: q) defaultFileMode h
        simp [openF, emptyPath, hnd, openFileFlag, hos]
    · intro hf
      rw [h] at hf
      simp at hf
  · have hb : FileExists fs p = false := by
      cases hx : FileExists fs p
      · rfl
      · exact absurd hx h
    refine ⟨by simp [Open, hb], fun _ => by simp [Open, hb]⟩

/-- Witness for C6 at a missing path in an empty root. -/
theorem c6_open_read_witness :
    Open fsEmptyRoot ["nope"] = (.error .fileDoesNotExist, fsEmptyRoot) :=
  (c6_open_read fsEmptyRoot ["nope"]).2 (by decide)

/-- Claim C7: for a non-empty path that is not currently a directory, when
the first native open for write or append fails, a failure cause other
than not-exist is surfaced immediately with no retry; a not-exist failure
makes the opener create all missing ancestors of the cleaned parent of the
path as directories with mode 0755 and retry the native open exactly once,
surfacing whatever that single retry returns; a failure of the ancestor
creation itself is surfaced. -/
theorem c7_open_retry (fs : FNode) (p : SegPath) (flag : Flag) (mode : Nat) (e : OsErr)
    (he : emptyPath p = false) (hnd : DirExists fs p = false)
    (hfl : flag = createFileFlag ∨ flag = appendFileFlag)
    (hosErr : (osOpenFile fs p flag mode).1 = .error e) :
    (isNotExist e = false → openF fs p flag mode = (.error (.osError e), fs)) ∧
    (isNotExist e = true →
      (∀ m2 fs₃, MkdirAll fs (parentPath (cleanPath p)) = (.error m2, fs₃) →
         openF fs p flag mode = (.error m2, fs₃)) ∧
      (∀ fs₃, MkdirAll fs (parentPath (cleanPath p)) = (.ok (), fs₃) →
         openF fs p flag mode =
           (match osOpenFile fs₃ p flag mode with
            | (.ok _, fs₄) => (.ok (), fs₄)
            | (.error e₂, fs₄) => (.error (.osError e₂), fs₄)) ∧
         ∀ q, q <+: parentPath (cleanPath p) →
           isDirAt fs₃ q = true ∧
           (lookupNode fs q = none → dirModeAt fs₃ q = some defaultDirMode))) := by
  have hos := osOpen_error_eq fs p flag mode e hosErr
  constructor
  · intro hne
    simp [openF, he, hnd, hos, hne]
  · intro hie
    constructor
    · intro m2 fs₃ hmk
      simp [openF, he, hnd, hos, hie, hmk]
    · intro fs₃ hmk
      constructor
      · simp [openF, he, hnd, hos, hie, hmk]
      · intro q hq
        have hgo : mkdirAllGo (parentPath (cleanPath p)) fs = .ok fs₃ := by
          unfold MkdirAll at hmk
          cases hg : mkdirAllGo (parentPath (cleanPath p)) fs with
          | ok f2 =>
            rw [hg] at hmk
            simp at hmk
            rw [hmk]
          | error e2 =>
            rw [hg] at hmk
            simp at hmk
        exact mkdirAllGo_spec (parentPath (cleanPath p)) fs fs₃ hgo q hq

/-- Witness for C7: creating a b inside an empty root first fails with
not-exist, the ancestor a is created with mode 0755, and the single retry
is what the opener returns. -/
theorem c7_open_retry_witness :
    openF fsEmptyRoot ["a", "b"] createFileFlag 420 =
      (match osOpenFile fsARetry ["a", "b"] createFileFlag 420 with
       | (.ok _, fs₄) => (.ok (), fs₄)
       | (.error e₂, fs₄) => (.error (.osError e₂), fs₄)) ∧
    isDirAt fsARetry ["a"] = true ∧ dirModeAt fsARetry ["a"] = some defaultDirMode := by
  have h := c7_open_retry fsEmptyRoot ["a", "b"] createFileFlag 420 .enoent
    (by decide) (by decide) (Or.inl rfl) (by decide)
  have h2 := (h.2 (by decide)).2 fsARetry (by decide)
  have h3 := h2.2 ["a"] (by decide)
  exact ⟨h2.1, h3.1, h3.2 (by decide)⟩

/-- Claim C8: copying from a source that does not exist fails with the
not-found sentinel and performs no filesystem mutation. -/
theorem c8_copy_notfound (fs : FNode) (src dest : SegPath)
    (h : pathExists fs src = false) :
    copy fs src dest = (.error .notFound, fs) := by
  simp [copy, h]

/-- Witness for C8 at a missing source in a concrete root. -/
theorem c8_copy_notfound_witness :
    copy fsCopy ["zz"] ["d"] = (.error .notFound, fsCopy) :=
  c8_copy_notfound fsCopy ["zz"] ["d"] (by decide)

/-- Claim C9: opening for write is not atomic on error: with the path
a dotdot b c over an empty root, the native open fails with not-exist, the
opener creates the directory b (the cleaned parent) and the single retried
open fails again through the still-missing a, so an error is returned
while the created directory remains on disk. -/
theorem c9_open_not_atomic :
    (Create fsEmptyRoot pOpenRetry).1 = .error (.osError .enoent) ∧
    DirExists (Create fsEmptyRoot pOpenRetry).2 ["b"] = true ∧
    DirExists fsEmptyRoot ["b"] = false := by
  decide

/-- Claim C10: when the source is a regular file and the destination is an
existing directory already holding a directory named after the source's
basename, copyTo fails with the path-is-directory error from the
destination open's directory check, and the filesystem, that subdirectory
included, is left unchanged. -/
theorem c10_copy_subdir (fs : FNode) (src dest : SegPath)
    (hs : FileExists fs src = true) (hd : DirExists fs dest = true)
    (hsub : DirExists fs (dest ++ [basename src]) = true) :
    copy fs src dest = (.error .pathIsDirectory, fs) := by
  have hpe := fileExists_pathExists fs src hs
  have hsrcne : src ≠ [] := by
    intro h0
    subst h0
    have hsn := statAt_nil fs
    cases fs with
    | file c m =>
      rw [dirExists_file_root c m dest] at hd
      simp at hd
    | dir md r cs =>
      rw [FileExists, hsn] at hs
      simp at hs
  obtain ⟨c, m, hstat⟩ := fileExists_elim fs src hs
  have hne : emptyPath src = false := by
    cases src with
    | nil => exact absurd rfl hsrcne
    | cons a q => simp [emptyPath]
  have hopen1 : openF fs src openFileFlag 256 = (.ok (), fs) := by
    have hndd : DirExists fs src = false := fileExists_not_dir fs src hs
    have hos := osOpen_read_of_file fs src 256 hs
    simp [openF, hne, hndd, openFileFlag, hos]
  have hdest : openF fs (dest ++ [basename src]) createFileFlag m =
      (.error .pathIsDirectory, fs) := by
    have hne2 : emptyPath (dest ++ [basename src]) = false := by simp [emptyPath]
    simp [openF, hne2, hsub]
  have hdisp : copy fs src dest = copyFiles fs src (dest ++ [basename src]) := by
    simp [copy, hpe, hs, hd]
  rw [hdisp]
  simp [copyFiles, hstat, hopen1, hdest, modeOf]

/-- Witness for C10 at a root whose destination directory already holds a
subdirectory named like the source file. -/
theorem c10_copy_subdir_witness :
    copy fsCopySub ["a.txt"] ["d"] = (.error .pathIsDirectory, fsCopySub) :=
  c10_copy_subdir fsCopySub ["a.txt"] ["d"] (by decide) (by decide) (by decide)

end FsSpec
